import Mathlib

/-!
Verification of the menu-ingestion and order-aggregation core of the
`develersrl/lunches` repository (package `tuttobene`, `src/pkg/brain/brain.go`,
and the `tinabot` order aggregator).

The Go code is shallowly embedded: Go strings are Lean `String`s manipulated
through their underlying `List Char`, Go's `decimal.Decimal` is an unnormalized
coefficient/scale pair, fallible functions return `Except`, and the two
nondeterministic or third-party ingredients of the parser — the iteration order
of the Go map `Titles` and the best-match behavior of the `sahilm/fuzzy`
library — are explicit parameters (`iter` and `find`) so that theorems quantify
over every behavior the Go program can exhibit.
-/

namespace Tuttobene

/-! ### Go string primitives

Each of the following models the Go standard-library string function used by
`brain.go`, acting on the character list underlying the string. -/

/-- Models Go `strings.HasPrefix s p`. -/
def goStartsWith (s p : String) : Bool :=
  p.data.isPrefixOf s.data

/-- Models Go `strings.TrimPrefix s p`: drops `p` from the front of `s` when it
is present, otherwise returns `s` unchanged. -/
def goDropStart (s p : String) : String :=
  if goStartsWith s p then ⟨s.data.drop p.data.length⟩ else s

/-- Models Go `strings.HasSuffix s p`. -/
def goHasSuffix (s p : String) : Bool :=
  p.data.isSuffixOf s.data

/-- Models Go `strings.Fields`: splits around runs of whitespace, no empty
fields. -/
def goFields (s : String) : List String :=
  ((s.data.splitOnP (·.isWhitespace)).filter (· ≠ [])).map (⟨·⟩)

/-- Models Go `strings.TrimSpace`: removes leading and trailing whitespace. -/
def goTrimSpace (s : String) : String :=
  ⟨((s.data.dropWhile (·.isWhitespace)).reverse.dropWhile (·.isWhitespace)).reverse⟩

/-- Models Go `strings.ToLower` (ASCII letters suffice for the marker word
`"tuttobene"` this is applied to). -/
def goToLower (s : String) : String :=
  ⟨s.data.map Char.toLower⟩

/-- Models Go `strings.Split s " "` (split on every single space, empty parts
kept). -/
def goSplitSpace (s : String) : List String :=
  (s.data.splitOn ' ').map (⟨·⟩)

/-- Models Go `strings.Title` for the words produced here: uppercases every
letter that follows a non-letter (ASCII case mapping). -/
def goTitleCase (s : String) : String :=
  ⟨(s.data.foldl
      (fun (acc : List Char × Bool) c =>
        (acc.1 ++ [if acc.2 then c else c.toUpper], c.isAlpha))
      ([], false)).1⟩

/-- Association-list lookup used to model Go map reads (first binding wins). -/
def lookupKey {α β : Type} [DecidableEq α] (k : α) : List (α × β) → Option β
  | [] => none
  | (a, b) :: rest => if a = k then some b else lookupKey k rest

/-! ### Data model

`menu.go` of the repository is not under `src/`; the enumeration and the row
and menu records below are reconstructed from their uses in `brain.go` and
from the spec. -/

/-- Modelled from the spec: `menu.go` (not in `src/`) declares the
`MenuRowType` constants; the spec fixes the total order
`Unknown < Empty < Primo < Secondo < Contorno < Vegetariano < Frutta < Dolce <
Panino`, and `brain.go` compares them with `<`. The Go source spells the first
constant `Unknonwn`. -/
inductive MenuRowType
  | Unknonwn
  | Empty
  | Primo
  | Secondo
  | Contorno
  | Vegetariano
  | Frutta
  | Dolce
  | Panino
deriving DecidableEq, Repr

/-- The integer value of each enumeration constant (Go `iota` order per the
spec's stated total order). -/
def MenuRowType.toNat : MenuRowType → Nat
  | .Unknonwn => 0
  | .Empty => 1
  | .Primo => 2
  | .Secondo => 3
  | .Contorno => 4
  | .Vegetariano => 5
  | .Frutta => 6
  | .Dolce => 7
  | .Panino => 8

/-- Go's `<` on the `MenuRowType` integer constants. -/
def MenuRowType.ltb (a b : MenuRowType) : Bool :=
  a.toNat < b.toNat

/-- Models `shopspring/decimal.Decimal` as the unnormalized pair
`value / 10 ^ scale` produced by `decimal.NewFromString` on plain fixed-point
literals (`decimal.Zero` is `⟨0, 0⟩`). -/
structure Dec where
  value : Int
  scale : Nat
deriving DecidableEq, Repr

/-- The rational number a `Dec` denotes. -/
def Dec.toRat (d : Dec) : ℚ :=
  (d.value : ℚ) / (10 : ℚ) ^ d.scale

/-- Modelled from the spec: `MenuRow` (declared in `menu.go`, not in `src/`)
with the fields `Content`, `Type`, `IsDailyProposal`, `Price` used by
`brain.go`. -/
structure MenuRow where
  content : String
  type : MenuRowType
  isDailyProposal : Bool
  price : Dec
deriving DecidableEq, Repr

/-- Modelled from the spec: `Menu` holds the recognized date (if any; the Go
code substitutes "now in Europe/Rome" for a missing date, an effect kept
abstract here as `none`) and the emitted rows in encounter order. The date
value itself is opaque (`Nat`), produced by the `parseDate` oracle. -/
structure Menu where
  date : Option Nat
  rows : List MenuRow
deriving DecidableEq, Repr

/-- The canonical section titles, Go global `Titles` in `brain.go`
(a `map[MenuRowType]string`; this list records its bindings in enumeration
order, while functions below take the iteration order as a parameter because
Go map iteration order is unspecified). -/
def Titles : List (MenuRowType × String) :=
  [(.Primo, "primi piatti"),
   (.Secondo, "secondi piatti"),
   (.Contorno, "contorni"),
   (.Vegetariano, "piatti vegetariani"),
   (.Frutta, "frutta"),
   (.Dolce, "dolci"),
   (.Panino, "i nostri panini espressi")]

/-! ### Daily-proposal stripping and row classification (`brain.go`) -/

/-- Go global `dailyProposalPrefixes` in `brain.go`. -/
def dailyProposalPrefixes : List String :=
  ["Proposta del giorno: ", "Prop. del giorno: "]

/-- Models `trimPrefixAll` of `brain.go`: tries to trim each listed marker in
order from the front of `s`, reporting whether any was trimmed. -/
def trimPrefixAll (s : String) (markers : List String) : String × Bool :=
  markers.foldl
    (fun acc p => if goStartsWith acc.1 p then (goDropStart acc.1 p, true) else acc)
    (s, false)

/-- Models `normalizeSpaces` of `brain.go`:
`strings.Join(strings.Fields(s), " ")`. -/
def normalizeSpaces (s : String) : String :=
  String.intercalate " " (goFields s)

/-- Models `parseRow` of `brain.go`: classifies one row, returning
`(content, rowType, isTitle, isDailyProposal)`. -/
def parseRow (idx : Nat) (content : String) (menuTitles : List (Nat × MenuRowType)) :
    String × MenuRowType × Bool × Bool :=
  if content = "" then (content, .Empty, false, false)
  else
    match lookupKey idx menuTitles with
    | some titleType => (content, titleType, true, false)
    | none =>
      let t := trimPrefixAll content dailyProposalPrefixes
      (t.1, .Unknonwn, false, t.2)

/-! ### Price parsing (`brain.go` and `shopspring/decimal`) -/

/-- Models Go `strings.Replace(s, "€", "", -1)`. -/
def removeEuro (s : String) : String :=
  ⟨s.data.filter (· ≠ '€')⟩

/-- Decimal digit list to the number it denotes. -/
def digitsToNat (l : List Char) : Nat :=
  l.foldl (fun n c => n * 10 + (c.toNat - '0'.toNat)) 0

/-- Models Go `strconv.ParseInt` on the digit strings `shopspring/decimal`
builds: an optional sign followed by at least one decimal digit. -/
def parseSignedDigits (l : List Char) : Option Int :=
  match l with
  | '-' :: rest =>
    if rest ≠ [] ∧ rest.all (·.isDigit) then some (-(digitsToNat rest : Int)) else none
  | '+' :: rest =>
    if rest ≠ [] ∧ rest.all (·.isDigit) then some (digitsToNat rest : Int) else none
  | _ =>
    if l ≠ [] ∧ l.all (·.isDigit) then some (digitsToNat l : Int) else none

/-- Models `decimal.NewFromString` (`shopspring/decimal`) on plain fixed-point
literals: the text before the first `.` and the text after it are concatenated
and parsed as one (possibly signed) integer, scaled by the number of
fractional digits; a second `.` or any non-digit is an error. (The library
additionally accepts exponent notation, which no claim here depends on.) -/
def decimalFromString (s : String) : Option Dec :=
  let ip := s.data.takeWhile (· ≠ '.')
  match s.data.dropWhile (· ≠ '.') with
  | [] => (parseSignedDigits ip).map (fun n => ⟨n, 0⟩)
  | _ :: fp =>
    if '.' ∈ fp then none
    else (parseSignedDigits (ip ++ fp)).map (fun n => ⟨n, fp.length⟩)

/-- Models `parsePrice` of `brain.go`: out-of-range index or unparsable cell
yields `decimal.Zero`, otherwise the parsed decimal. The Go function cannot
return an error by its very signature; this model is likewise total. -/
def parsePrice (priceCol : List String) (idx : Nat) : Dec :=
  if priceCol.length ≤ idx then ⟨0, 0⟩
  else
    match decimalFromString (goTrimSpace (removeEuro (priceCol.getD idx ""))) with
    | none => ⟨0, 0⟩
    | some d => d

/-! ### Section-title location (`getMenuTitles` of `brain.go`)

`getMenuTitles` ranges over the Go map `Titles` (unspecified iteration order,
parameter `iter`) and calls `fuzzy.Find(title, rows)` (third-party
`sahilm/fuzzy`); the latter is modelled by the oracle
`find : String → List String → Option Nat` returning the index of the best
match when one with non-negative score exists (`results[0].Index` after the
`len(results) == 0 || results[0].Score < 0` guard), and `none` otherwise. -/

/-- The two error kinds `getMenuTitles` can build. -/
inductive TitleError
  | orderViolation (found last : MenuRowType)
  | duplicateTitle (title : String)
deriving DecidableEq, Repr

/-- The loop body of `getMenuTitles` of `brain.go`. State: the map built so
far (`m`) and `lastTitleType` (`last`). Note the faithful translation of the
Go loop never passes an updated `last` to the recursive calls, because the Go
function never assigns `lastTitleType` after its declaration. -/
def titlesLoop (find : String → List String → Option Nat) (rows : List String) :
    List (MenuRowType × String) → List (Nat × MenuRowType) → MenuRowType →
    Except TitleError (List (Nat × MenuRowType))
  | [], m, _ => .ok m
  | (t, title) :: rest, m, last =>
    match find title rows with
    | none => titlesLoop find rows rest m last
    | some i =>
      if t.ltb last then .error (.orderViolation t last)
      else if (lookupKey i m).isSome then .error (.duplicateTitle title)
      else titlesLoop find rows rest ((i, t) :: m) last

/-- Models `getMenuTitles` of `brain.go`, given the map iteration order `iter`
and the fuzzy best-match oracle `find`. -/
def getMenuTitles (find : String → List String → Option Nat)
    (iter : List (MenuRowType × String)) (rows : List String) :
    Except TitleError (List (Nat × MenuRowType)) :=
  titlesLoop find rows iter [] .Unknonwn

/-! ### Menu assembly (`ParseMenuCells` and `ParseSheet` of `brain.go`) -/

/-- Models `normalizeDish` of `brain.go`: for `Contorno` rows, two-word dishes
beginning (case-insensitively) with `grigliat` or `vapore` are rewritten to
`<Titled second word> alla griglia` / `<Titled second word> al vapore`. -/
def normalizeDish (r : MenuRow) : MenuRow :=
  if r.type = .Contorno then
    let tab := [("grigliat", " alla griglia"), ("vapore", " al vapore")]
    { r with
      content := tab.foldl
        (fun content t =>
          if goStartsWith (goToLower content) t.1 then
            match goSplitSpace content with
            | [_, w] => goTitleCase (goToLower w) ++ t.2
            | _ => content
          else content)
        r.content }
  else r

/-- The fixed multi-choice condiment suffix tested by `ParseMenuCells`. -/
def condimentSuffix : String := "(sono sempre disponibili)"

/-- The sheet line that carries `condimentSuffix` in practice. -/
def condimentLine : String := "Pasta al ragù, pesto o pomodoro (sono sempre disponibili)"

/-- The three fixed rows emitted in place of a condiment-marker row. -/
def condimentRows (t : MenuRowType) (price : Dec) : List MenuRow :=
  [⟨"Pasta al ragù", t, false, price⟩,
   ⟨"Pasta al pesto", t, false, price⟩,
   ⟨"Pasta al pomodoro", t, false, price⟩]

/-- The row loop of `ParseMenuCells` of `brain.go`, one forward pass over the
name column. `pd` is the `parseDate` oracle (`parseDate` is repository code
not under `src/`; the spec only says rows before the first title are tried as
dates), `idx` the current row index, `cur` the Go `currentType`, `date` the
date recognized so far. Returns the final date and the emitted rows. -/
def parseMenuLoop (titles : List (Nat × MenuRowType)) (priceCol : List String)
    (pd : String → Option Nat) :
    Nat → MenuRowType → Option Nat → List String → Option Nat × List MenuRow
  | _, _, date, [] => (date, [])
  | idx, cur, date, r :: rest =>
    let p := parseRow idx (normalizeSpaces r) titles
    if p.2.2.1 then
      parseMenuLoop titles priceCol pd (idx + 1) p.2.1 date rest
    else if cur = .Unknonwn then
      let date' := match pd (normalizeSpaces r) with
        | some d => some d
        | none => date
      parseMenuLoop titles priceCol pd (idx + 1) cur date' rest
    else if cur = .Panino ∧ p.2.1 = .Empty then (date, [])
    else if p.2.1 = .Empty then parseMenuLoop titles priceCol pd (idx + 1) cur date rest
    else
      let price := parsePrice priceCol idx
      if goHasSuffix p.1 condimentSuffix then
        let k := parseMenuLoop titles priceCol pd (idx + 1) cur date rest
        (k.1, condimentRows cur price ++ k.2)
      else
        let k := parseMenuLoop titles priceCol pd (idx + 1) cur date rest
        (k.1, normalizeDish ⟨goTrimSpace p.1, cur, p.2.2.2, price⟩ :: k.2)

/-- The parse errors `ParseSheet` can return (LoadLocation failure for the
date default, an environment effect, is not modelled). -/
inductive ParseError
  | notEnoughRows (n : Nat)
  | titleError (e : TitleError)
deriving DecidableEq, Repr

/-- Models `ParseMenuCells` of `brain.go` (parameters as in `getMenuTitles`
and `parseMenuLoop`). -/
def ParseMenuCells (find : String → List String → Option Nat)
    (iter : List (MenuRowType × String)) (pd : String → Option Nat)
    (nameCol priceCol : List String) : Except ParseError Menu :=
  match getMenuTitles find iter nameCol with
  | .error e => .error (.titleError e)
  | .ok titles =>
    let k := parseMenuLoop titles priceCol pd 0 .Unknonwn none nameCol
    .ok ⟨k.1, k.2⟩

/-- Models `ParseSheet` of `brain.go`: a sheet is a grid of cell texts; fewer
than 12 rows is the "not enough rows" error; the marker word `tuttobene` in
the second cell of the first row shifts the dish/price columns from 0/1 to
1/2; rows too short to have the selected column contribute nothing. -/
def ParseSheet (find : String → List String → Option Nat)
    (iter : List (MenuRowType × String)) (pd : String → Option Nat)
    (s : List (List String)) : Except ParseError Menu :=
  if s.length < 12 then .error (.notEnoughRows s.length)
  else
    let col :=
      match s with
      | r0 :: _ =>
        if 2 ≤ r0.length ∧ goToLower (goTrimSpace (r0.getD 1 "")) = "tuttobene" then 1 else 0
      | [] => 0
    let nameCol := s.filterMap (fun r => r.get? col)
    let priceCol := s.filterMap (fun r => r.get? (col + 1))
    ParseMenuCells find iter pd nameCol priceCol

/-! ### Order aggregation

The `Order` implementation (`actions/tinabot/order.go`) is not under `src/`;
only its test `order_test.go` is. The definitions below are modelled from the
spec (§3, §4.4) and checked against the literal scenario of that test. The
timestamp and the Save/Load persistence hooks touch wall-clock time and an
external store and are outside this embedding. -/

/-- Modelled from the spec: a `UserChoice` is an ordered sequence of chosen
`MenuRow`s (`UserChoice.Add` appends). -/
def UserChoice : Type := List MenuRow

/-- Modelled from the spec: `Order.selections` maps each username to the
ordered sequence of `UserChoice`s it last `Set`; insertion order of usernames
is preserved (an association list). -/
structure Order where
  selections : List (String × List UserChoice)

/-- Modelled from the spec: `Order.Set(u, cs)` replaces the user's prior entry
entirely (keeping its position), or appends a new entry for a new user. -/
def Order.set (o : Order) (u : String) (cs : List UserChoice) : Order :=
  if (lookupKey u o.selections).isSome then
    ⟨o.selections.map (fun e => if e.1 = u then (u, cs) else e)⟩
  else ⟨o.selections ++ [(u, cs)]⟩

/-- Modelled from the spec: `Order.ClearUser(u)` removes the user's entry and
returns the newline-joined contents of the dishes that were in it (the empty
string, with no error, when the user had none). -/
def Order.clearUser (o : Order) (u : String) : String × Order :=
  match lookupKey u o.selections with
  | none => ("", o)
  | some cs =>
    (String.intercalate "\n" ((cs.flatMap id).map (·.content)),
     ⟨o.selections.filter (fun e => e.1 ≠ u)⟩)

/-- One step of the aggregation: record one `(dish content, username)` pair in
the per-content rollup `(content, count, first-seen usernames)`. -/
def aggInsert (acc : List (String × Nat × List String)) (p : String × String) :
    List (String × Nat × List String) :=
  if acc.any (fun e => e.1 = p.1) then
    acc.map (fun e =>
      if e.1 = p.1 then
        (e.1, e.2.1 + 1, if p.2 ∈ e.2.2 then e.2.2 else e.2.2 ++ [p.2])
      else e)
  else acc ++ [(p.1, 1, [p.2])]

/-- All `(dish content, username)` pairs of an order, users in insertion
order, each user's dishes in the order they were added. -/
def Order.pairs (o : Order) : List (String × String) :=
  o.selections.flatMap (fun e => ((e.2.flatMap id).map (·.content)).map (·, e.1))

/-- Modelled from the spec: `Order.String()` — one line per distinct dish
content in first-seen order, `"<count> <content> [<user1>, <user2>, ...]"`. -/
def Order.render (o : Order) : String :=
  String.intercalate "\n"
    ((o.pairs.foldl aggInsert []).map
      (fun e => toString e.2.1 ++ " " ++ e.1 ++ " [" ++ String.intercalate ", " e.2.2 ++ "]"))

/-- Modelled from the spec: `Order.Format(false)` — same grouping as
`String()` without the username lists. -/
def Order.format (o : Order) : String :=
  String.intercalate "\n"
    ((o.pairs.foldl aggInsert []).map (fun e => toString e.2.1 ++ " " ++ e.1))

/-- One concrete behavior of the fuzzy best-match oracle: the first row whose
text equals the title exactly (an exact occurrence is a maximal-score match,
and the canonical titles share no characters-in-order with each other's
rows in the inputs where this oracle is used). -/
def exactFind (title : String) (rows : List String) : Option Nat :=
  rows.indexOf? title

/-- Discriminator: does a title-locator result carry the title-order-violation
error? -/
def isOrderViolation : Except TitleError (List (Nat × MenuRowType)) → Bool
  | .error (.orderViolation _ _) => true
  | _ => false

/-! ### Helper lemmas -/

theorem getD_beyond {l : List String} {n : Nat} (h : l.length ≤ n) : l.getD n "" = "" := by
  simp [List.getD_eq_getElem?_getD, List.getElem?_eq_none h]

theorem parseSignedDigits_nonneg {l : List Char} (hm : '-' ∉ l) {n : Int}
    (hs : parseSignedDigits l = some n) : 0 ≤ n := by
  unfold parseSignedDigits at hs
  split at hs
  · exact absurd (List.mem_cons_self _ _) hm
  · split at hs
    · cases hs
      positivity
    · cases hs
  · split at hs
    · cases hs
      positivity
    · cases hs

theorem decimalFromString_nonneg {s : String} (hm : '-' ∉ s.data) {d : Dec}
    (hd : decimalFromString s = some d) : 0 ≤ d.value := by
  unfold decimalFromString at hd
  have hip : '-' ∉ s.data.takeWhile (· ≠ '.') := fun hx =>
    hm ((List.takeWhile_prefix _).sublist.subset hx)
  split at hd
  · obtain ⟨n, hn, rfl⟩ := Option.map_eq_some'.mp hd
    exact parseSignedDigits_nonneg hip hn
  · rename_i c fp heq
    split at hd
    · cases hd
    · obtain ⟨n, hn, rfl⟩ := Option.map_eq_some'.mp hd
      have hfp : '-' ∉ fp := by
        intro hx
        have hsuf : c :: fp <:+ s.data := heq ▸ List.dropWhile_suffix _
        exact hm (hsuf.sublist.subset (List.mem_cons_of_mem _ hx))
      refine parseSignedDigits_nonneg (fun hx => ?_) hn
      rcases List.mem_append.mp hx with hx | hx
      · exact hip hx
      · exact hfp hx

/-! ### Claims C4, C9, C2, C5, C6 -/

/-- Claim C4: a sheet grid with fewer than 12 rows makes `ParseSheet` fail
with the malformed-sheet ("not enough rows") error — an `Except.error`, so no
`Menu` value, partial or otherwise, is produced — for every column layout,
fuzzy oracle, title iteration order and date oracle. -/
theorem claim_C4 (find : String → List String → Option Nat)
    (iter : List (MenuRowType × String)) (pd : String → Option Nat)
    (s : List (List String)) (h : s.length < 12) :
    ParseSheet find iter pd s = .error (.notEnoughRows s.length) := by
  simp [ParseSheet, h]

/-- Witness for C4 at the empty sheet. -/
theorem claim_C4_witness :
    ([] : List (List String)).length < 12 ∧
    ParseSheet (fun _ _ => none) [] (fun _ => none) [] = .error (.notEnoughRows 0) :=
  ⟨by decide, claim_C4 (fun _ _ => none) [] (fun _ => none) [] (by decide)⟩

/-- Claim C9: in the row loop of `ParseMenuCells`, once the current section is
`Panino`, a blank row (whitespace-normalized text empty) stops processing
entirely: no `MenuRow` is emitted for that row or for any later row,
whatever the remaining rows contain. -/
theorem claim_C9 (titles : List (Nat × MenuRowType)) (priceCol : List String)
    (pd : String → Option Nat) (idx : Nat) (date : Option Nat) (b : String)
    (rest : List String) (h : normalizeSpaces b = "") :
    parseMenuLoop titles priceCol pd idx .Panino date (b :: rest) = (date, []) := by
  simp [parseMenuLoop, parseRow, h]

/-- Witness for C9: a blank row in the `Panino` section swallows a would-be
dish row `"pasta"`. -/
theorem claim_C9_witness :
    normalizeSpaces " " = "" ∧
    parseMenuLoop [] [] (fun _ => none) 0 .Panino none [" ", "pasta"] = (none, []) :=
  ⟨by decide, claim_C9 [] [] (fun _ => none) 0 none " " ["pasta"] (by decide)⟩

/-- Claim C2 (amended): for a non-empty, non-title row, `parseRow` classifies
it as an ordinary (`Unknonwn`) row and strips the daily-proposal markers by
trying each of the two markers once, in order — so at most one occurrence of
each marker (hence up to two in total, the short one from the remainder of the
long one) is stripped — with the proposal flag set exactly when at least one
strip happened. -/
theorem claim_C2 (idx : Nat) (content : String) (titles : List (Nat × MenuRowType))
    (h1 : content ≠ "") (h2 : lookupKey idx titles = none) :
    (parseRow idx content titles).2.1 = MenuRowType.Unknonwn ∧
    (parseRow idx content titles).2.2.1 = false ∧
    (((parseRow idx content titles).2.2.2 = false ∧
      (parseRow idx content titles).1 = content) ∨
     ((parseRow idx content titles).2.2.2 = true ∧
      ((goStartsWith content "Proposta del giorno: " = true ∧
        goStartsWith (goDropStart content "Proposta del giorno: ") "Prop. del giorno: " = false ∧
        (parseRow idx content titles).1 = goDropStart content "Proposta del giorno: ") ∨
       (goStartsWith content "Proposta del giorno: " = false ∧
        goStartsWith content "Prop. del giorno: " = true ∧
        (parseRow idx content titles).1 = goDropStart content "Prop. del giorno: ") ∨
       (goStartsWith content "Proposta del giorno: " = true ∧
        goStartsWith (goDropStart content "Proposta del giorno: ") "Prop. del giorno: " = true ∧
        (parseRow idx content titles).1 =
          goDropStart (goDropStart content "Proposta del giorno: ") "Prop. del giorno: ")))) := by
  cases hA : goStartsWith content "Proposta del giorno: "
  · cases hB : goStartsWith content "Prop. del giorno: " <;>
      simp [parseRow, h1, h2, trimPrefixAll, dailyProposalPrefixes, hA, hB]
  · cases hB : goStartsWith (goDropStart content "Proposta del giorno: ") "Prop. del giorno: " <;>
      simp [parseRow, h1, h2, trimPrefixAll, dailyProposalPrefixes, hA, hB]

/-- Witness for C2 at a plain daily-proposal row. -/
theorem claim_C2_witness :
    ("Proposta del giorno: polpo" ≠ "") ∧
    lookupKey 4 ([] : List (Nat × MenuRowType)) = none ∧
    (parseRow 4 "Proposta del giorno: polpo" []).2.1 = MenuRowType.Unknonwn := by
  refine ⟨by decide, by decide, (claim_C2 4 "Proposta del giorno: polpo" [] (by decide) (by decide)).1⟩

/-- Counterexample for C2 as frozen: on the row
`"Proposta del giorno: Prop. del giorno: tagliata"` the classifier strips BOTH
markers (two occurrences in total), producing `"tagliata"` — while stripping
at most one occurrence could only produce the row itself or
`"Prop. del giorno: tagliata"`. -/
theorem claim_C2_counterexample :
    parseRow 3 "Proposta del giorno: Prop. del giorno: tagliata" [] =
      ("tagliata", MenuRowType.Unknonwn, false, true) ∧
    goDropStart "Proposta del giorno: Prop. del giorno: tagliata" "Proposta del giorno: " ≠
      "tagliata" ∧
    goStartsWith "Proposta del giorno: Prop. del giorno: tagliata" "Prop. del giorno: " = false ∧
    "Proposta del giorno: Prop. del giorno: tagliata" ≠ "tagliata" := by
  refine ⟨by decide, by decide, by decide, by decide⟩

/-- Claim C5: `parsePrice` is total (the Go function returns no error by its
signature, and this model is a total function): an index beyond the price
column yields exactly zero, an unparsable cell (after removing `€` and
trimming whitespace) yields exactly zero, and otherwise the parsed fixed-point
decimal is returned unchanged. -/
theorem claim_C5 (priceCol : List String) (idx : Nat) :
    (priceCol.length ≤ idx → parsePrice priceCol idx = ⟨0, 0⟩) ∧
    (decimalFromString (goTrimSpace (removeEuro (priceCol.getD idx ""))) = none →
      parsePrice priceCol idx = ⟨0, 0⟩) ∧
    (∀ d, decimalFromString (goTrimSpace (removeEuro (priceCol.getD idx ""))) = some d →
      parsePrice priceCol idx = d) := by
  refine ⟨fun h => by simp [parsePrice, h], fun h => ?_, fun d h => ?_⟩
  · by_cases hlen : priceCol.length ≤ idx
    · simp [parsePrice, hlen]
    · rw [List.getD_eq_getElem?_getD] at h
      simp [parsePrice, hlen, h]
  · have hlen : ¬ priceCol.length ≤ idx := by
      intro hle
      rw [getD_beyond hle] at h
      simp [removeEuro, goTrimSpace, decimalFromString, parseSignedDigits] at h
    rw [List.getD_eq_getElem?_getD] at h
    simp [parsePrice, hlen, h]

/-- Witness for C5: absence, parse failure, and a successful parse of
`"€ 7.50"`. -/
theorem claim_C5_witness :
    parsePrice [] 0 = ⟨0, 0⟩ ∧ parsePrice ["n/a"] 0 = ⟨0, 0⟩ ∧
    parsePrice ["€ 7.50"] 0 = ⟨750, 2⟩ :=
  ⟨(claim_C5 [] 0).1 (by decide), (claim_C5 ["n/a"] 0).2.1 (by decide),
   (claim_C5 ["€ 7.50"] 0).2.2 ⟨750, 2⟩ (by decide)⟩

/-- Claim C6 (amended): a parsed price is non-negative whenever the price cell
text (after removing `€` and trimming whitespace) contains no minus sign; a
minus sign, however, is passed through to a genuinely negative price, so the
spec's unconditional non-negativity invariant does not hold. -/
theorem claim_C6 (priceCol : List String) (idx : Nat)
    (h : '-' ∉ (goTrimSpace (removeEuro (priceCol.getD idx ""))).data) :
    0 ≤ (parsePrice priceCol idx).toRat := by
  unfold parsePrice
  split
  · norm_num [Dec.toRat]
  · split
    · norm_num [Dec.toRat]
    · rename_i d hd
      have hv : 0 ≤ d.value := decimalFromString_nonneg h hd
      unfold Dec.toRat
      apply div_nonneg
      · exact_mod_cast hv
      · positivity

/-- Witness for C6 at the cell `"€ 7.50"`. -/
theorem claim_C6_witness :
    '-' ∉ (goTrimSpace (removeEuro ((["€ 7.50"] : List String).getD 0 ""))).data ∧
    0 ≤ (parsePrice ["€ 7.50"] 0).toRat :=
  ⟨by decide, claim_C6 ["€ 7.50"] 0 (by decide)⟩

/-- Counterexample for C6 as frozen: the cell text `"€ -5"` (a negative-number
price cell) parses to the decimal `-5`, whose value is strictly negative — the
emitted row's price is not non-negative. -/
theorem claim_C6_counterexample :
    parsePrice ["€ -5"] 0 = ⟨-5, 0⟩ ∧ (Dec.mk (-5) 0).toRat < 0 :=
  ⟨by decide, by norm_num [Dec.toRat]⟩

/-! ### Claims C1 and C7: title-locator validation -/

theorem ltb_unknonwn (t : MenuRowType) : t.ltb .Unknonwn = false := by
  cases t <;> rfl

theorem titlesLoop_cons_none (find : String → List String → Option Nat)
    (rows : List String) (t0 : MenuRowType) (title : String)
    (rest : List (MenuRowType × String)) (m : List (Nat × MenuRowType))
    (last : MenuRowType) (hf : find title rows = none) :
    titlesLoop find rows ((t0, title) :: rest) m last = titlesLoop find rows rest m last := by
  simp [titlesLoop, hf]

theorem titlesLoop_cons_dup (find : String → List String → Option Nat)
    (rows : List String) (t0 : MenuRowType) (title : String)
    (rest : List (MenuRowType × String)) (m : List (Nat × MenuRowType)) (i : Nat)
    (hf : find title rows = some i) (hdup : (lookupKey i m).isSome = true) :
    titlesLoop find rows ((t0, title) :: rest) m .Unknonwn =
      .error (.duplicateTitle title) := by
  simp [titlesLoop, hf, ltb_unknonwn, hdup]

theorem titlesLoop_cons_new (find : String → List String → Option Nat)
    (rows : List String) (t0 : MenuRowType) (title : String)
    (rest : List (MenuRowType × String)) (m : List (Nat × MenuRowType)) (i : Nat)
    (hf : find title rows = some i) (hdup : (lookupKey i m).isSome = false) :
    titlesLoop find rows ((t0, title) :: rest) m .Unknonwn =
      titlesLoop find rows rest ((i, t0) :: m) .Unknonwn := by
  simp [titlesLoop, hf, ltb_unknonwn, hdup]

theorem titlesLoop_no_orderViolation (find : String → List String → Option Nat)
    (rows : List String) :
    ∀ (iter : List (MenuRowType × String)) (m : List (Nat × MenuRowType))
      (t l : MenuRowType),
      titlesLoop find rows iter m .Unknonwn ≠ .error (.orderViolation t l) := by
  intro iter
  induction iter with
  | nil => intro m t l h; simp [titlesLoop] at h
  | cons p rest ih =>
    intro m t l h
    obtain ⟨t0, title⟩ := p
    cases hf : find title rows with
    | none =>
      rw [titlesLoop_cons_none find rows t0 title rest m _ hf] at h
      exact ih m t l h
    | some i =>
      cases hdup : (lookupKey i m).isSome with
      | true =>
        rw [titlesLoop_cons_dup find rows t0 title rest m i hf hdup] at h
        cases h
      | false =>
        rw [titlesLoop_cons_new find rows t0 title rest m i hf hdup] at h
        exact ih _ t l h

theorem titlesLoop_dup_of_mem (find : String → List String → Option Nat)
    (rows : List String) :
    ∀ (iter : List (MenuRowType × String)) (m : List (Nat × MenuRowType)),
      (∃ p ∈ iter, ∃ k, find p.2 rows = some k ∧ (lookupKey k m).isSome) →
      ∃ s, titlesLoop find rows iter m .Unknonwn = .error (.duplicateTitle s) := by
  intro iter
  induction iter with
  | nil => rintro m ⟨p, hp, -⟩; cases hp
  | cons q rest ih =>
    rintro m ⟨p, hp, k, hk, hm⟩
    obtain ⟨t0, title⟩ := q
    cases hf : find title rows with
    | none =>
      rcases List.mem_cons.mp hp with rfl | hp'
      · rw [hf] at hk; cases hk
      · obtain ⟨s, hs⟩ := ih m ⟨p, hp', k, hk, hm⟩
        exact ⟨s, (titlesLoop_cons_none find rows t0 title rest m _ hf).trans hs⟩
    | some i =>
      cases hdup : (lookupKey i m).isSome with
      | true => exact ⟨title, titlesLoop_cons_dup find rows t0 title rest m i hf hdup⟩
      | false =>
        have hwit : ∃ p ∈ rest, ∃ k, find p.2 rows = some k ∧
            (lookupKey k ((i, t0) :: m)).isSome := by
          rcases List.mem_cons.mp hp with rfl | hp'
          · rw [hf] at hk
            cases hk
            rw [hdup] at hm
            cases hm
          · refine ⟨p, hp', k, hk, ?_⟩
            by_cases hik : i = k <;> simp [lookupKey, hik, hm]
        obtain ⟨s, hs⟩ := ih ((i, t0) :: m) hwit
        exact ⟨s, (titlesLoop_cons_new find rows t0 title rest m i hf hdup).trans hs⟩

theorem titlesLoop_dup_of_collision (find : String → List String → Option Nat)
    (rows : List String) :
    ∀ (l₁ : List (MenuRowType × String)) (t₁ : MenuRowType) (s₁ : String)
      (l₂ : List (MenuRowType × String)) (t₂ : MenuRowType) (s₂ : String)
      (l₃ : List (MenuRowType × String)) (k : Nat) (m : List (Nat × MenuRowType)),
      find s₁ rows = some k → find s₂ rows = some k →
      ∃ s, titlesLoop find rows (l₁ ++ (t₁, s₁) :: l₂ ++ (t₂, s₂) :: l₃) m .Unknonwn =
        .error (.duplicateTitle s) := by
  intro l₁
  induction l₁ with
  | nil =>
    intro t₁ s₁ l₂ t₂ s₂ l₃ k m h₁ h₂
    rw [List.nil_append]
    cases hdup : (lookupKey k m).isSome with
    | true => exact ⟨s₁, titlesLoop_cons_dup find rows t₁ s₁ _ m k h₁ hdup⟩
    | false =>
      have hwit : ∃ p ∈ l₂ ++ (t₂, s₂) :: l₃, ∃ k', find p.2 rows = some k' ∧
          (lookupKey k' ((k, t₁) :: m)).isSome := by
        refine ⟨(t₂, s₂), List.mem_append_right _ (List.mem_cons_self _ _), k, h₂, ?_⟩
        simp [lookupKey]
      obtain ⟨s, hs⟩ := titlesLoop_dup_of_mem find rows _ _ hwit
      exact ⟨s, (titlesLoop_cons_new find rows t₁ s₁ _ m k h₁ hdup).trans hs⟩
  | cons a l₁' ih =>
    intro t₁ s₁ l₂ t₂ s₂ l₃ k m h₁ h₂
    obtain ⟨ta, sa⟩ := a
    rw [List.cons_append]
    cases hf : find sa rows with
    | none =>
      obtain ⟨s, hs⟩ := ih t₁ s₁ l₂ t₂ s₂ l₃ k m h₁ h₂
      exact ⟨s, (titlesLoop_cons_none find rows ta sa _ m _ hf).trans hs⟩
    | some i =>
      cases hdup : (lookupKey i m).isSome with
      | true => exact ⟨sa, titlesLoop_cons_dup find rows ta sa _ m i hf hdup⟩
      | false =>
        obtain ⟨s, hs⟩ := ih t₁ s₁ l₂ t₂ s₂ l₃ k ((i, ta) :: m) h₁ h₂
        exact ⟨s, (titlesLoop_cons_new find rows ta sa _ m i hf hdup).trans hs⟩

theorem titlesLoop_ok (find : String → List String → Option Nat) (rows : List String) :
    ∀ (iter : List (MenuRowType × String)) (m : List (Nat × MenuRowType)),
      (∀ p ∈ iter, ∀ k, find p.2 rows = some k → lookupKey k m = none) →
      List.Pairwise
        (fun a b => ¬((find a.2 rows).isSome ∧ find a.2 rows = find b.2 rows)) iter →
      ∃ m', titlesLoop find rows iter m .Unknonwn = .ok m' := by
  intro iter
  induction iter with
  | nil => exact fun m _ _ => ⟨m, rfl⟩
  | cons q rest ih =>
    intro m hfresh hpw
    obtain ⟨t0, title⟩ := q
    obtain ⟨hhead, hrest⟩ := List.pairwise_cons.mp hpw
    cases hf : find title rows with
    | none =>
      obtain ⟨m2, hm2⟩ := ih m (fun p hp => hfresh p (List.mem_cons_of_mem _ hp)) hrest
      exact ⟨m2, (titlesLoop_cons_none find rows t0 title rest m _ hf).trans hm2⟩
    | some i =>
      have hnone : lookupKey i m = none := hfresh (t0, title) (List.mem_cons_self _ _) i hf
      have hfresh2 : ∀ p ∈ rest, ∀ k, find p.2 rows = some k →
          lookupKey k ((i, t0) :: m) = none := by
        intro p hp k hk
        have hki : i ≠ k := by
          rintro rfl
          exact hhead p hp ⟨by rw [hf]; rfl, by rw [hf, hk]⟩
        simp only [lookupKey, if_neg hki]
        exact hfresh p (List.mem_cons_of_mem _ hp) k hk
      obtain ⟨m2, hm2⟩ := ih ((i, t0) :: m) hfresh2 hrest
      refine ⟨m2, ?_⟩
      rw [titlesLoop_cons_new find rows t0 title rest m i hf (by rw [hnone]; rfl)]
      exact hm2

/-- Claim C1 (the code disagrees): `getMenuTitles` can never return the
title-order-violation error — `lastTitleType` is initialized to `Unknonwn` and
never reassigned inside the loop, so the guard `t < lastTitleType` compares
every enumeration value against the minimum and is dead code. The first
conjunct quantifies over every fuzzy oracle, every iteration order of the
`Titles` map, and every row list; the second evaluates the locator on a sheet
whose `secondi piatti` title sits physically above `primi piatti` — the claim
demands a title-order-violation abort, yet the locator succeeds. -/
theorem claim_C1 :
    (∀ (find : String → List String → Option Nat) (iter : List (MenuRowType × String))
       (rows : List String),
       isOrderViolation (getMenuTitles find iter rows) = false) ∧
    getMenuTitles exactFind Titles ["secondi piatti", "primi piatti"] =
      .ok [(0, .Secondo), (1, .Primo)] := by
  refine ⟨fun find iter rows => ?_, by rfl⟩
  cases hres : getMenuTitles find iter rows with
  | ok m => rfl
  | error e =>
    cases e with
    | orderViolation t l =>
      exact absurd hres (titlesLoop_no_orderViolation find rows iter [] t l)
    | duplicateTitle s => rfl

/-- Claim C7: whenever two distinct canonical-title entries of the iterated
title table resolve (through the fuzzy best-match oracle) to the same row
index, `getMenuTitles` aborts with a duplicate-title error, whatever the map
iteration order; and when all resolved indices are pairwise distinct, no error
is raised at all — in particular titles that found no match (oracle `none`)
are simply skipped. -/
theorem claim_C7 (find : String → List String → Option Nat) (rows : List String)
    (iter : List (MenuRowType × String)) :
    (∀ (l₁ : List (MenuRowType × String)) (t₁ : MenuRowType) (s₁ : String)
       (l₂ : List (MenuRowType × String)) (t₂ : MenuRowType) (s₂ : String)
       (l₃ : List (MenuRowType × String)) (k : Nat),
       iter = l₁ ++ (t₁, s₁) :: l₂ ++ (t₂, s₂) :: l₃ →
       find s₁ rows = some k → find s₂ rows = some k →
       ∃ s, getMenuTitles find iter rows = .error (.duplicateTitle s)) ∧
    (List.Pairwise
        (fun a b => ¬((find a.2 rows).isSome ∧ find a.2 rows = find b.2 rows)) iter →
      ∃ m, getMenuTitles find iter rows = .ok m) := by
  constructor
  · rintro l₁ t₁ s₁ l₂ t₂ s₂ l₃ k rfl h₁ h₂
    exact titlesLoop_dup_of_collision find rows l₁ t₁ s₁ l₂ t₂ s₂ l₃ k [] h₁ h₂
  · intro hpw
    exact titlesLoop_ok find rows iter [] (fun _ _ _ _ => rfl) hpw

/-- Witness for C7: an oracle resolving every title to row 0 produces the
duplicate-title error on the canonical table; the exact-match oracle on a
two-title sheet with distinct rows succeeds. -/
theorem claim_C7_witness :
    (∃ s, getMenuTitles (fun _ _ => some 0) Titles ["primi piatti"] =
      .error (.duplicateTitle s)) ∧
    (∃ m, getMenuTitles exactFind Titles ["primi piatti", "secondi piatti"] = .ok m) :=
  ⟨(claim_C7 (fun _ _ => some 0) ["primi piatti"] Titles).1 [] .Primo "primi piatti"
      [] .Secondo "secondi piatti"
      [(.Contorno, "contorni"), (.Vegetariano, "piatti vegetariani"), (.Frutta, "frutta"),
       (.Dolce, "dolci"), (.Panino, "i nostri panini espressi")] 0 rfl rfl rfl,
   (claim_C7 exactFind ["primi piatti", "secondi piatti"] Titles).2 (by decide)⟩

/-! ### Claims C8 and C10: condiment-marker expansion -/

theorem suffix_append_cases {α : Type} (l l₁ l₂ : List α) (h : l <:+ l₁ ++ l₂) :
    l <:+ l₂ ∨ ∃ u, u ≠ [] ∧ u <:+ l₁ ∧ l = u ++ l₂ := by
  induction l₁ with
  | nil => left; simpa using h
  | cons a l₁' ih =>
    obtain ⟨t, ht⟩ := h
    cases t with
    | nil =>
      right
      exact ⟨a :: l₁', by simp, List.suffix_refl _, by simpa using ht⟩
    | cons b t' =>
      have ht' : t' ++ l = l₁' ++ l₂ := by simpa using congrArg List.tail ht
      rcases ih ⟨t', ht'⟩ with hl | ⟨u, hne, hu, hequ⟩
      · exact Or.inl hl
      · exact Or.inr ⟨u, hne, hu.trans (List.suffix_cons a l₁'), hequ⟩

theorem condiment_no_overlap (p : String) (hp : p ∈ dailyProposalPrefixes)
    (u : List Char) (hne : u ≠ []) (hsu : u <:+ p.data)
    (hpre : u <+: condimentSuffix.data) : False := by
  have hall : p.data.tails.all
      (fun v => v.isEmpty || !v.isPrefixOf condimentSuffix.data) = true := by
    simp only [dailyProposalPrefixes, List.mem_cons, List.not_mem_nil, or_false] at hp
    rcases hp with rfl | rfl <;> decide
  have hv := List.all_eq_true.mp hall u ((List.mem_tails u p.data).mpr hsu)
  cases he : u.isEmpty with
  | true => exact hne (List.isEmpty_iff.mp he)
  | false =>
    rw [he, Bool.false_or] at hv
    have hfalse : u.isPrefixOf condimentSuffix.data = false := by
      cases hb : u.isPrefixOf condimentSuffix.data
      · rfl
      · rw [hb] at hv; cases hv
    have htrue : u.isPrefixOf condimentSuffix.data = true := by
      simpa using List.isPrefixOf_iff_prefix.mpr hpre
    rw [htrue] at hfalse
    cases hfalse

theorem dropStart_keeps_suffix (s p : String) (hp : p ∈ dailyProposalPrefixes)
    (h : goHasSuffix s condimentSuffix = true) :
    goHasSuffix (goDropStart s p) condimentSuffix = true := by
  unfold goDropStart
  split
  · rename_i hst
    have hpre : p.data <+: s.data := by
      simpa [goStartsWith] using hst
    obtain ⟨r, hr⟩ := hpre
    have hsuf : condimentSuffix.data <:+ s.data := by
      simpa [goHasSuffix] using h
    rw [← hr] at hsuf
    rcases suffix_append_cases _ _ _ hsuf with h2 | ⟨u, hne, hu, hequ⟩
    · have hdrop : s.data.drop p.data.length = r := by
        rw [← hr]; exact List.drop_left _ _
      simp only [goHasSuffix, hdrop]
      simpa using h2
    · exact (condiment_no_overlap p hp u hne hu ⟨r, hequ.symm⟩).elim
  · exact h

theorem trim_keeps_suffix (s : String) (h : goHasSuffix s condimentSuffix = true) :
    goHasSuffix (trimPrefixAll s dailyProposalPrefixes).1 condimentSuffix = true := by
  cases hA : goStartsWith s "Proposta del giorno: "
  · cases hB : goStartsWith s "Prop. del giorno: "
    · simpa [trimPrefixAll, dailyProposalPrefixes, hA, hB] using h
    · have h2 := dropStart_keeps_suffix s "Prop. del giorno: " (by simp [dailyProposalPrefixes]) h
      simpa [trimPrefixAll, dailyProposalPrefixes, hA, hB] using h2
  · have h1 := dropStart_keeps_suffix s "Proposta del giorno: " (by simp [dailyProposalPrefixes]) h
    cases hB : goStartsWith (goDropStart s "Proposta del giorno: ") "Prop. del giorno: "
    · simpa [trimPrefixAll, dailyProposalPrefixes, hA, hB] using h1
    · have h12 := dropStart_keeps_suffix (goDropStart s "Proposta del giorno: ")
        "Prop. del giorno: " (by simp [dailyProposalPrefixes]) h1
      simpa [trimPrefixAll, dailyProposalPrefixes, hA, hB] using h12

theorem condiment_step (titles : List (Nat × MenuRowType)) (priceCol : List String)
    (pd : String → Option Nat) (idx : Nat) (cur : MenuRowType) (date : Option Nat)
    (r : String) (rest : List String)
    (hti : lookupKey idx titles = none) (hcur : cur ≠ .Unknonwn)
    (hsuf : goHasSuffix (trimPrefixAll (normalizeSpaces r) dailyProposalPrefixes).1
      condimentSuffix = true) :
    parseMenuLoop titles priceCol pd idx cur date (r :: rest) =
      ((parseMenuLoop titles priceCol pd (idx + 1) cur date rest).1,
       condimentRows cur (parsePrice priceCol idx) ++
         (parseMenuLoop titles priceCol pd (idx + 1) cur date rest).2) := by
  have hne : normalizeSpaces r ≠ "" := by
    intro h0
    rw [h0] at hsuf
    exact absurd hsuf (by decide)
  have hpr : parseRow idx (normalizeSpaces r) titles =
      ((trimPrefixAll (normalizeSpaces r) dailyProposalPrefixes).1, .Unknonwn, false,
       (trimPrefixAll (normalizeSpaces r) dailyProposalPrefixes).2) := by
    simp [parseRow, hne, hti]
  simp [parseMenuLoop, hpr, hcur, hsuf]

/-- Claim C8: inside an open section (`cur ≠ Unknonwn`), a non-title row whose
text is exactly the fixed multi-choice condiment marker line expands into
exactly the three fixed `MenuRows` — `Pasta al ragù`, `Pasta al pesto`,
`Pasta al pomodoro` — all with the current section type and the row's parsed
price and none flagged as daily proposal, in place of the row's own text. -/
theorem claim_C8 (titles : List (Nat × MenuRowType)) (priceCol : List String)
    (pd : String → Option Nat) (idx : Nat) (cur : MenuRowType) (date : Option Nat)
    (r : String) (rest : List String)
    (hti : lookupKey idx titles = none) (hcur : cur ≠ .Unknonwn)
    (hr : r = condimentLine) :
    parseMenuLoop titles priceCol pd idx cur date (r :: rest) =
      ((parseMenuLoop titles priceCol pd (idx + 1) cur date rest).1,
       condimentRows cur (parsePrice priceCol idx) ++
         (parseMenuLoop titles priceCol pd (idx + 1) cur date rest).2) := by
  subst hr
  exact condiment_step titles priceCol pd idx cur date condimentLine rest hti hcur (by decide)

/-- Witness for C8: the marker line in the `Primo` section of a one-row tail
produces exactly the three pasta rows. -/
theorem claim_C8_witness :
    lookupKey 0 ([] : List (Nat × MenuRowType)) = none ∧
    (MenuRowType.Primo ≠ .Unknonwn) ∧
    parseMenuLoop [] [] (fun _ => none) 0 .Primo none [condimentLine] =
      (none, condimentRows .Primo ⟨0, 0⟩) :=
  ⟨rfl, by decide,
   (claim_C8 [] [] (fun _ => none) 0 .Primo none condimentLine [] rfl (by decide) rfl).trans
     (by rfl)⟩

/-- Claim C10: the condiment expansion is triggered by a suffix test, not by
exact equality with the canonical marker line — any non-title row (inside an
open section) whose classified text merely ends with
`"(sono sempre disponibili)"` is discarded and replaced by the three fixed
pasta rows. -/
theorem claim_C10 (titles : List (Nat × MenuRowType)) (priceCol : List String)
    (pd : String → Option Nat) (idx : Nat) (cur : MenuRowType) (date : Option Nat)
    (r : String) (rest : List String)
    (hti : lookupKey idx titles = none) (hcur : cur ≠ .Unknonwn)
    (hsuf : goHasSuffix (normalizeSpaces r) condimentSuffix = true) :
    parseMenuLoop titles priceCol pd idx cur date (r :: rest) =
      ((parseMenuLoop titles priceCol pd (idx + 1) cur date rest).1,
       condimentRows cur (parsePrice priceCol idx) ++
         (parseMenuLoop titles priceCol pd (idx + 1) cur date rest).2) :=
  condiment_step titles priceCol pd idx cur date r rest hti hcur
    (trim_keeps_suffix _ hsuf)

/-- Witness for C10: a row quite different from the canonical marker line but
ending with the marker suffix still expands into the three pasta rows. -/
theorem claim_C10_witness :
    lookupKey 0 ([] : List (Nat × MenuRowType)) = none ∧
    (MenuRowType.Secondo ≠ .Unknonwn) ∧
    goHasSuffix (normalizeSpaces "Riso in bianco (sono sempre disponibili)")
      condimentSuffix = true ∧
    parseMenuLoop [] [] (fun _ => none) 0 .Secondo none
        ["Riso in bianco (sono sempre disponibili)"] =
      (none, condimentRows .Secondo ⟨0, 0⟩) :=
  ⟨rfl, by decide, by decide,
   (claim_C10 [] [] (fun _ => none) 0 .Secondo none
       "Riso in bianco (sono sempre disponibili)" [] rfl (by decide) (by decide)).trans
     (by rfl)⟩

/-! ### Claim C3: Set then ClearUser -/

theorem lookupKey_append_none {α β : Type} [DecidableEq α] (k : α)
    (l₁ l₂ : List (α × β)) (h : lookupKey k l₁ = none) :
    lookupKey k (l₁ ++ l₂) = lookupKey k l₂ := by
  induction l₁ with
  | nil => rfl
  | cons e rest ih =>
    obtain ⟨a, b⟩ := e
    by_cases hak : a = k
    · simp [lookupKey, hak] at h
    · simp only [lookupKey, if_neg hak] at h ⊢
      exact ih h

theorem lookupKey_eq_none_keys {α β : Type} [DecidableEq α] {k : α}
    {l : List (α × β)} (h : lookupKey k l = none) : ∀ e ∈ l, e.1 ≠ k := by
  induction l with
  | nil => intro e he; cases he
  | cons e0 rest ih =>
    intro e he
    obtain ⟨a, b⟩ := e0
    by_cases hak : a = k
    · simp [lookupKey, hak] at h
    · simp only [lookupKey, if_neg hak] at h
      rcases List.mem_cons.mp he with rfl | he'
      · exact hak
      · exact ih h e he'

/-- Claim C3 (amended): for a username `u` with no prior entry, `Set(u, cs)`
followed immediately by `ClearUser(u)` returns exactly the newline-joined
contents of `cs`'s dishes in the order they were added, and the aggregated
`String()` output afterwards is identical to what it was before the `Set` —
i.e. as if `u` had never been set; moreover `ClearUser` on a username with no
entry returns the empty string, leaves the order unchanged, and raises no
error. (When `u` already had an entry, the post-clear aggregate reflects `u`'s
complete absence, not the pre-`Set` state — see the counterexample.) -/
theorem claim_C3 (o : Order) (u : String) (cs : List UserChoice)
    (h : lookupKey u o.selections = none) :
    ((o.set u cs).clearUser u).1 =
      String.intercalate "\n" ((cs.flatMap id).map (·.content)) ∧
    ((o.set u cs).clearUser u).2.render = o.render ∧
    o.clearUser u = ("", o) := by
  have hset : (o.set u cs).selections = o.selections ++ [(u, cs)] := by
    simp [Order.set, h]
  have hlook : lookupKey u (o.selections ++ [(u, cs)]) = some cs := by
    rw [lookupKey_append_none u _ _ h]
    simp [lookupKey]
  have hfilter : List.filter (fun e => !decide (e.1 = u)) (o.selections ++ [(u, cs)]) =
      o.selections := by
    rw [List.filter_append]
    have h1 : List.filter (fun e => !decide (e.1 = u)) o.selections = o.selections := by
      apply List.filter_eq_self.mpr
      intro e he
      simpa using lookupKey_eq_none_keys h e he
    rw [h1]
    simp
  refine ⟨?_, ?_, ?_⟩
  · simp [Order.clearUser, hset, hlook]
  · simp [Order.clearUser, hset, hlook, hfilter]
  · simp [Order.clearUser, h]

/-- Witness for C3 on a fresh order. -/
theorem claim_C3_witness :
    lookupKey "test" (Order.mk []).selections = none ∧
    (((Order.mk []).set "test" [[⟨"primo", .Primo, false, ⟨0, 0⟩⟩]]).clearUser "test").1 =
      "primo" ∧
    (Order.mk []).clearUser "test" = ("", Order.mk []) :=
  ⟨rfl,
   ((claim_C3 (Order.mk []) "test" [[⟨"primo", .Primo, false, ⟨0, 0⟩⟩]] rfl).1).trans
     (by decide),
   (claim_C3 (Order.mk []) "test" [[⟨"primo", .Primo, false, ⟨0, 0⟩⟩]] rfl).2.2⟩

/-- Counterexample for C3 as frozen: when `u` already has an entry, `Set(u, cs)`
replaces it and `ClearUser(u)` then removes the user entirely, so the
aggregated output afterwards (empty) differs from what it was before the
`Set` (`"1 primo [test]"`). -/
theorem claim_C3_counterexample :
    ((((Order.mk []).set "test" [[⟨"primo", .Primo, false, ⟨0, 0⟩⟩]]).set "test"
        [[⟨"secondo", .Secondo, false, ⟨0, 0⟩⟩]]).clearUser "test").2.render = "" ∧
    ((Order.mk []).set "test" [[⟨"primo", .Primo, false, ⟨0, 0⟩⟩]]).render =
      "1 primo [test]" ∧
    ("" : String) ≠ "1 primo [test]" :=
  ⟨by decide, by decide, by decide⟩

end Tuttobene
